import Mathlib

/-!
Verification development for the QPAssets image compressor
(`image_compressor.py`).

The compressor works on an on-disk filesystem: it reads the image file,
optionally copies it to a sibling backup, re-encodes it through the image
codec library into an in-memory buffer, and overwrites the original only
when the buffer is strictly smaller.  We embed the filesystem as a partial
map from paths to byte strings, and the external codec (open + mode
transforms + save-to-buffer) as an oracle `enc : Bytes → Except String Bytes`
over which all theorems quantify: a `.error` value models an exception
raised while opening, transforming or encoding, and `.ok buffer` models a
successful encode producing `buffer`.
-/

namespace QP

/-- File contents as a list of bytes; only length and equality are observed. -/
abbrev Bytes := List Nat

/-- A filesystem path, decomposed the way `pathlib` exposes it to
`compress_image`: parent directory, stem, and extension (`suffix`). -/
structure ImgPath where
  dir : String
  stem : String
  ext : String
deriving DecidableEq

/-- The filesystem: a partial map from paths to file contents. -/
abbrev FS := ImgPath → Option Bytes

/-- Writing a file: `open(path, 'wb'); f.write(bytes)`. -/
def FS.write (fs : FS) (p : ImgPath) (b : Bytes) : FS :=
  fun q => if q = p then some b else fs q

/-- On-disk byte size of a file, `path.stat().st_size` (0 when absent; the
code only reads it on files it has already opened). -/
def fileSize (fs : FS) (p : ImgPath) : Nat := ((fs p).getD []).length

/-- `CompressionConfig` dataclass of `image_compressor.py` with its
defaults. -/
structure CompressionConfig where
  quality : Nat := 85
  png_optimize : Bool := true
  png_compress_level : Nat := 9
  preserve_metadata : Bool := false
  create_backup : Bool := true
  backup_suffix : String := "_original"
  output_format : Option String := none
  progressive_jpeg : Bool := true

/-- Backup path `image_path.parent / f"{image_path.stem}{backup_suffix}{image_path.suffix}"`. -/
def backupPath (p : ImgPath) (suf : String) : ImgPath :=
  { dir := p.dir, stem := p.stem ++ suf, ext := p.ext }

/-- The backup block of `compress_image` (lines 308-314): when backups are
enabled and the write is in place, copy the current bytes of `image_path`
to the backup path unless a file of that name already exists. -/
def backupStep (config : CompressionConfig) (fs : FS) (image_path out : ImgPath)
    (orig : Bytes) : FS :=
  if config.create_backup = true ∧ out = image_path then
    if (fs (backupPath image_path config.backup_suffix)).isSome then fs
    else fs.write (backupPath image_path config.backup_suffix) orig
  else fs

/-- Rendering of the percentage in `f"Compressed: {savings:.1f}% smaller"`;
the float formatting is modelled with integer tenths (no claim observes
the digits). -/
def savingsPct (orig comp : Nat) : String :=
  let tenths := (orig - comp) * 1000 / orig
  toString (tenths / 10) ++ "." ++ toString (tenths % 10)

/-- Plain rendering of a path, used in exception text. -/
def pathString (p : ImgPath) : String := p.dir ++ "/" ++ p.stem ++ p.ext

/-- Text of the `FileNotFoundError` raised by `shutil.copy2` / `Image.open`
when the source file is missing. -/
def noSuchFileMsg (p : ImgPath) : String :=
  "[Errno 2] No such file or directory: " ++ pathString p

/-- Result of `ImageCompressor.compress_image`: the updated filesystem plus
the returned tuple `(success, new_size, message)`. -/
structure CompressOutcome where
  fs : FS
  success : Bool
  new_size : Nat
  message : String

/-- `ImageCompressor.compress_image` (lines 287-376).  `enc` is the codec
oracle standing for `Image.open` + the format-specific mode handling +
`img.save(buffer, ...)`: it consumes the file's bytes and either raises
(`.error e`, caught by the `except` block which returns
`(False, 0, f"Error: {e}")`) or yields the encoded buffer.  A missing
source file raises `FileNotFoundError` in the backup copy or in
`Image.open`, likewise caught.  After a successful encode the buffer is
compared against `image_path.stat().st_size` (re-read after the backup
step) and written to `output_path` only when strictly smaller. -/
def compress_image (enc : Bytes → Except String Bytes) (config : CompressionConfig)
    (fs : FS) (image_path : ImgPath) (output_path : Option ImgPath) :
    CompressOutcome :=
  let out := output_path.getD image_path
  match fs image_path with
  | none => { fs := fs, success := false, new_size := 0,
              message := "Error: " ++ noSuchFileMsg image_path }
  | some orig =>
    let fs1 := backupStep config fs image_path out orig
    match enc orig with
    | .error e => { fs := fs1, success := false, new_size := 0,
                    message := "Error: " ++ e }
    | .ok buffer =>
      let original_size := fileSize fs1 image_path
      if buffer.length < original_size then
        { fs := fs1.write out buffer, success := true, new_size := buffer.length,
          message := "Compressed: " ++ savingsPct original_size buffer.length ++ "% smaller" }
      else
        { fs := fs1, success := true, new_size := original_size,
          message := "Already optimized (no changes made)" }

/-- Repeated in-place compression of the same file, for the
"across any number of repeated compressions" part of the backup claim. -/
def iterCompress (enc : Bytes → Except String Bytes) (config : CompressionConfig)
    (image_path : ImgPath) : Nat → FS → FS
  | 0, fs => fs
  | n + 1, fs => iterCompress enc config image_path n
      (compress_image enc config fs image_path none).fs

/-!
Pixel-level model of the codec library's in-memory images, for the mode
handling that `compress_image` and `_optimize_png` perform before the
actual `save` call.
-/

/-- Pixel modes occurring in the mode-handling code: true color (`RGB`),
true color with alpha (`RGBA`), grayscale (`L`), grayscale with alpha
(`LA`), palette with an alpha band (`PA`) and palette (`P`). -/
inductive PMode where
  | RGB | RGBA | L | LA | PA | P
deriving DecidableEq

/-- A pixel with red, green, blue and alpha channels.  Grayscale pixels
store the gray value in all of `r`, `g`, `b`; palette pixels store the
palette index in `r` and (for `PA`) the alpha band in `a`. -/
structure Pix where
  r : Nat
  g : Nat
  b : Nat
  a : Nat
deriving DecidableEq

/-- The opaque white pixel `(255, 255, 255)` of
`Image.new('RGB', img.size, (255, 255, 255))`. -/
def whitePix : Pix := { r := 255, g := 255, b := 255, a := 255 }

/-- An in-memory image: a mode, dimensions, a pixel grid, and (for the
palette modes) the palette, mapping a pixel's stored index to its color,
together with the number of palette entries. -/
structure PImage where
  mode : PMode
  width : Nat
  height : Nat
  px : Nat → Nat → Pix
  palette : Nat → Pix
  paletteSize : Nat

/-- All pixels of the image in row-major order. -/
def pixList (img : PImage) : List Pix :=
  (List.range img.height).flatMap fun j =>
    (List.range img.width).map fun i => img.px i j

/-- `img.split()[-1].getextrema()`: the (min, max) of the alpha band, or
`none` on an image with no pixels (where the library has no extrema to
report). -/
def alphaExtrema (img : PImage) : Option (Nat × Nat) :=
  match pixList img with
  | [] => none
  | p :: ps => some (ps.foldl (fun m q => (min m.1 q.a, max m.2 q.a)) (p.a, p.a))

/-- The codec library's exact division by 255 with rounding
(`MULDIV255(a, b) = (t = a*b + 128; ((t >> 8) + t) >> 8)`), used by
`paste` with an alpha mask. -/
def muldiv255 (x y : Nat) : Nat :=
  ((x * y + 128) / 256 + (x * y + 128)) / 256

/-- One channel of `background.paste(img, mask)` with an 8-bit mask value
`a`: blend of the background channel and the source channel. -/
def blendChan (bgc srcc a : Nat) : Nat :=
  muldiv255 bgc (255 - a) + muldiv255 srcc a

/-- Blending a source pixel onto an opaque background pixel with mask
value `a`; the result lives in an alpha-free image. -/
def blendPix (bg src : Pix) (a : Nat) : Pix :=
  { r := blendChan bg.r src.r a, g := blendChan bg.g src.g a,
    b := blendChan bg.b src.b a, a := 255 }

/-- A pixel's color channels carried into an alpha-free image. -/
def opaqueRGB (c : Pix) : Pix := { r := c.r, g := c.g, b := c.b, a := 255 }

/-- `img.convert('RGBA')` on a `P`-mode image: resolve every palette index
through the palette (whose entries carry the transparency info). -/
def convertRGBA_fromP (img : PImage) : PImage :=
  { img with mode := .RGBA, px := fun i j => img.palette ((img.px i j).r) }

/-- The `P`-resolution step of the JPEG branch: `P` images are first
converted to `RGBA`, all other modes pass through. -/
def resolveP (img : PImage) : PImage :=
  if img.mode = .P then convertRGBA_fromP img else img

/-- The JPEG branch of `compress_image` (lines 335-346): flatten
alpha/palette modes onto an opaque white background, and convert any
other non-`RGB` mode to `RGB`.  `RGBA`/`LA` sources (including `P` after
conversion to `RGBA`) are pasted with their alpha band as mask, blending
every pixel onto white; a `PA` source is pasted without a mask, its
palette colors covering the background. -/
def jpegPrepare (img : PImage) : PImage :=
  if img.mode = .RGBA ∨ img.mode = .LA ∨ img.mode = .PA ∨ img.mode = .P then
    let img1 := resolveP img
    if img1.mode = .RGBA ∨ img1.mode = .LA then
      { img1 with
        mode := .RGB
        px := fun i j => blendPix whitePix (img1.px i j) ((img1.px i j).a) }
    else
      { img1 with
        mode := .RGB
        px := fun i j => opaqueRGB (img1.palette ((img1.px i j).r)) }
  else if img.mode = .RGB then img
  else { img with mode := .RGB, px := fun i j => opaqueRGB (img.px i j) }

/-- `img.convert('RGB')` on an `RGBA` image: drop the alpha band, keeping
the color channels as they are. -/
def toRGB_dropAlpha (img : PImage) : PImage :=
  { img with mode := .RGB, px := fun i j => opaqueRGB (img.px i j) }

/-- The color triples of an image's pixels, row-major. -/
def rgbList (img : PImage) : List (Nat × Nat × Nat) :=
  (pixList img).map fun p => (p.r, p.g, p.b)

/-- `img.getcolors(maxcolors)`: `none` when the image uses more than
`maxcolors` distinct colors, otherwise the list of `(count, color)` pairs,
one entry per distinct color. -/
def getcolors (img : PImage) (maxcolors : Nat) : Option (List (Nat × (Nat × Nat × Nat))) :=
  let ds := (rgbList img).dedup
  if ds.length > maxcolors then none
  else some (ds.map fun c => ((rgbList img).count c, c))

/-- Models the codec-library call
`img.convert('P', palette=Image.Palette.ADAPTIVE, colors=n)`: adaptive
quantization derives a palette with the requested number of entries
(`_optimize_png` always requests exactly the image's distinct-color
count, so no entry is wasted).  The index grid the library produces is
not observed by any later step, so only the mode and palette size are
tracked. -/
def convertAdaptive (img : PImage) (n : Nat) : PImage :=
  { img with mode := .P, paletteSize := n }

/-- First half of `_optimize_png` (lines 409-412): an `RGBA` image whose
alpha band has extrema `(255, 255)` is converted to plain `RGB`. -/
def alphaCheckStep (img : PImage) : PImage :=
  if img.mode = .RGBA ∧ alphaExtrema img = some (255, 255) then toRGB_dropAlpha img
  else img

/-- Second half of `_optimize_png` (lines 415-418): an `RGB` image using
at most 256 distinct colors is converted to an adaptive palette with one
entry per distinct color. -/
def paletteStep (img : PImage) : PImage :=
  if img.mode = .RGB then
    match getcolors img 256 with
    | some colors => convertAdaptive img colors.length
    | none => img
  else img

/-- `ImageCompressor._optimize_png` (lines 406-420). -/
def _optimize_png (img : PImage) : PImage :=
  paletteStep (alphaCheckStep img)

/-- Whether a mode carries an alpha channel (the `has_alpha` test of
`get_image_info` uses the same mode set). -/
def modeHasAlpha : PMode → Bool
  | .RGBA | .LA | .PA => true
  | _ => false

/-!
Directory scan (`scan_for_images`, lines 185-211).  The walked directory
tree is embedded as a finite tree of named directories with file-name
lists; `os.walk` with the in-place `dirs[:]` filter becomes a recursive
collection that only descends into kept subdirectories.  Paths are lists
of components, compared (as Python compares `Path` values) component-wise
lexicographically.
-/

/-- A directory: its name, the names of the plain files inside it, and its
subdirectories. -/
inductive FSTree where
  | node (name : String) (files : List String) (subdirs : List FSTree)

/-- Name of a directory node. -/
def FSTree.name : FSTree → String
  | .node n _ _ => n

/-- `get_image_extensions()` (line 182). -/
def get_image_extensions : List String :=
  [".png", ".jpg", ".jpeg", ".gif", ".webp", ".bmp", ".tiff"]

/-- Python's substring test `pat in s`: `splitOn` yields one piece more
than the number of occurrences. -/
def containsSub (pat s : String) : Bool := (s.splitOn pat).length != 1

/-- The `dirs[:]` filter (line 200): drop hidden directories, `venv` and
`.venv`. -/
def keepDir (d : String) : Bool :=
  !d.startsWith "." && d != "venv" && d != ".venv"

/-- The per-file filter (lines 202-208): skip hidden files and files whose
name contains a backup marker, keep files whose lowercased name ends with
a supported extension. -/
def keepFile (f : String) : Bool :=
  !f.startsWith "." && !containsSub "_original" f && !containsSub "_backup" f &&
    get_image_extensions.any fun e => f.toLower.endsWith e

mutual

/-- The collection performed by the `os.walk` loop: `pre` is the path of
the directory `t` (for the root, the `directory` argument itself; the
root's own name is not re-examined, matching `os.walk`). -/
def collectImages (pre : List String) : FSTree → List (List String)
  | .node _ files subdirs =>
    (files.filter keepFile).map (fun f => pre ++ [f]) ++ collectSub pre subdirs

/-- Collection over the (already `dirs[:]`-filtered) subdirectory list. -/
def collectSub (pre : List String) : List FSTree → List (List String)
  | [] => []
  | t :: ts =>
    (if keepDir t.name then collectImages (pre ++ [t.name]) t else []) ++
      collectSub pre ts

end

/-- `scan_for_images(directory)`: walk the tree rooted at `directory` with
the exclusion rules and return the matches sorted (Python sorts `Path`
values component-wise, which is the lexicographic order on the component
lists). -/
def scan_for_images (directory : List String) (t : FSTree) : List (List String) :=
  List.insertionSort (· ≤ ·) (collectImages directory t)

/-- A path the claim admits: a file reachable from the scan root through
directories that survive the pruning, whose name passes the file filter. -/
inductive ValidImagePath : List String → FSTree → List String → Prop where
  | here {pre n files subdirs f} : f ∈ files → keepFile f = true →
      ValidImagePath pre (.node n files subdirs) (pre ++ [f])
  | deeper {pre n files subdirs t p} : t ∈ subdirs → keepDir t.name = true →
      ValidImagePath (pre ++ [t.name]) t p →
      ValidImagePath pre (.node n files subdirs) p

/-!
Browser-variant HTTP layer.  The repository sources contain only the
desktop (tkinter) front end; the browser variant the specification
describes is not present, so its request handler is modelled from the
spec and wired to the engine definitions above.
-/

/-- One record of the `GET /api/images` response array. -/
structure ImageRecord where
  path : String
  filename : String
  original_size : Nat
  compressed_size : Option Nat
  width : Nat
  height : Nat
  format : String
  thumbnail_base64 : String

/-- JSON body of `POST /api/compress`. -/
structure CompressBody where
  path : String
  quality : Nat
  backup : Bool

/-- JSON body of the `POST /api/compress` response. -/
structure CompressReply where
  success : Bool
  new_size : Nat
  savings : Nat

/-- A response of the browser variant's two JSON endpoints. -/
inductive ApiResponse where
  | jsonImages (records : List ImageRecord)
  | jsonCompress (reply : CompressReply)
  | notFound

/-- HTTP methods used by the two endpoints. -/
inductive Method where
  | GET | POST
deriving DecidableEq

/-- An incoming HTTP request: method, URL path, optional compress body. -/
structure Request where
  method : Method
  url : String
  body : Option CompressBody

/-- Server-side state of the browser variant: the filesystem and codec
oracle the engine runs on, the scanned image records, and the decoding of
a request's path string into a filesystem path. -/
structure ServerState where
  fs : FS
  enc : Bytes → Except String Bytes
  records : List ImageRecord
  decodePath : String → ImgPath

/-- Modelled from the spec: the browser-variant HTTP handler is not in the
repository sources (only the tkinter front end is); per spec section 6,
`GET /api/images` returns the JSON array of image records and
`POST /api/compress` with body `{path, quality, backup}` runs the
compression engine on that path with the requested quality and backup
flag and returns `{success, new_size, savings}`. -/
def handle_request (s : ServerState) (req : Request) : ApiResponse :=
  match req.method, req.url, req.body with
  | .GET, "/api/images", _ => .jsonImages s.records
  | .POST, "/api/compress", some b =>
    let p := s.decodePath b.path
    let r := compress_image s.enc
      { quality := b.quality, create_backup := b.backup } s.fs p none
    .jsonCompress { success := r.success, new_size := r.new_size,
                    savings := fileSize s.fs p - r.new_size }
  | _, _, _ => .notFound

/-!
Helper lemmas about the backup step and the filesystem.
-/

theorem FS.write_self (fs : FS) (p : ImgPath) (b : Bytes) : fs.write p b p = some b := by
  simp [FS.write]

theorem FS.write_ne (fs : FS) (p : ImgPath) (b : Bytes) {q : ImgPath} (h : q ≠ p) :
    fs.write p b q = fs q := by
  simp [FS.write, h]

/-- The backup step never changes the source file: the only path it can
write is the backup path, and it writes there only when nothing is stored
under it, which the source path (being present) never satisfies. -/
theorem backupStep_image_path (config : CompressionConfig) (fs : FS)
    (image_path out : ImgPath) (orig : Bytes) (h : fs image_path = some orig) :
    backupStep config fs image_path out orig image_path = some orig := by
  unfold backupStep
  split
  · split
    · exact h
    · unfold FS.write
      split
      · rfl
      · exact h
  · exact h

/-- The backup step touches no path other than the backup path. -/
theorem backupStep_ne (config : CompressionConfig) (fs : FS)
    (image_path out : ImgPath) (orig : Bytes) {q : ImgPath}
    (hq : q ≠ backupPath image_path config.backup_suffix) :
    backupStep config fs image_path out orig q = fs q := by
  unfold backupStep
  split
  · split
    · rfl
    · exact FS.write_ne fs _ orig hq
  · rfl

theorem fileSize_backupStep (config : CompressionConfig) (fs : FS)
    (image_path out : ImgPath) (orig : Bytes) (h : fs image_path = some orig) :
    fileSize (backupStep config fs image_path out orig) image_path = orig.length := by
  rw [fileSize, backupStep_image_path config fs image_path out orig h]
  rfl

theorem fileSize_of_some (fs : FS) (p : ImgPath) (orig : Bytes)
    (h : fs p = some orig) : fileSize fs p = orig.length := by
  rw [fileSize, h]
  rfl

/-- A nonempty backup suffix makes the backup path differ from the source
path. -/
theorem backupPath_ne (p : ImgPath) (suf : String) (h : suf ≠ "") :
    backupPath p suf ≠ p := by
  intro he
  apply h
  have hs : p.stem ++ suf = p.stem := congrArg ImgPath.stem he
  have hl := congrArg String.length hs
  rw [String.length_append] at hl
  have hz : suf.length = 0 := by omega
  cases suf with
  | mk data =>
    cases data with
    | nil => rfl
    | cons a l => simp [String.length] at hz

/-!
Computation lemmas: the value of `compress_image` in each of its four
outcomes (missing file, codec exception, strictly smaller buffer, buffer
not smaller).
-/

theorem compress_image_missing (enc : Bytes → Except String Bytes)
    (config : CompressionConfig) (fs : FS) (image_path : ImgPath)
    (output_path : Option ImgPath) (hfp : fs image_path = none) :
    compress_image enc config fs image_path output_path =
      { fs := fs, success := false, new_size := 0,
        message := "Error: " ++ noSuchFileMsg image_path } := by
  simp only [compress_image, hfp]

theorem compress_image_error (enc : Bytes → Except String Bytes)
    (config : CompressionConfig) (fs : FS) (image_path : ImgPath)
    (output_path : Option ImgPath) (orig : Bytes) (e : String)
    (hfp : fs image_path = some orig) (he : enc orig = Except.error e) :
    compress_image enc config fs image_path output_path =
      { fs := backupStep config fs image_path (output_path.getD image_path) orig,
        success := false, new_size := 0, message := "Error: " ++ e } := by
  simp only [compress_image, hfp, he]

theorem compress_image_smaller (enc : Bytes → Except String Bytes)
    (config : CompressionConfig) (fs : FS) (image_path : ImgPath)
    (output_path : Option ImgPath) (orig buffer : Bytes)
    (hfp : fs image_path = some orig) (he : enc orig = Except.ok buffer)
    (hlt : buffer.length < orig.length) :
    compress_image enc config fs image_path output_path =
      { fs := (backupStep config fs image_path (output_path.getD image_path)
            orig).write (output_path.getD image_path) buffer,
        success := true, new_size := buffer.length,
        message := "Compressed: " ++ savingsPct orig.length buffer.length
          ++ "% smaller" } := by
  simp only [compress_image, hfp, he]
  rw [fileSize_backupStep config fs image_path (output_path.getD image_path) orig hfp,
    if_pos hlt]

theorem compress_image_not_smaller (enc : Bytes → Except String Bytes)
    (config : CompressionConfig) (fs : FS) (image_path : ImgPath)
    (output_path : Option ImgPath) (orig buffer : Bytes)
    (hfp : fs image_path = some orig) (he : enc orig = Except.ok buffer)
    (hge : orig.length ≤ buffer.length) :
    compress_image enc config fs image_path output_path =
      { fs := backupStep config fs image_path (output_path.getD image_path) orig,
        success := true, new_size := orig.length,
        message := "Already optimized (no changes made)" } := by
  simp only [compress_image, hfp, he]
  rw [fileSize_backupStep config fs image_path (output_path.getD image_path) orig hfp,
    if_neg (Nat.not_lt.mpr hge)]

/-!
Claim theorems.
-/

/-- C1: for every codec outcome, configuration, filesystem state and
output-path choice, `compress_image` never increases the on-disk size of
the source file: either the source file's bytes are left exactly as they
were, or they are replaced by the re-encoded buffer, and that happens
only when the buffer is strictly shorter than the file's current
contents; in all cases the resulting size is at most the original
size. -/
theorem c1_never_grows_file (enc : Bytes → Except String Bytes)
    (config : CompressionConfig) (fs : FS) (image_path : ImgPath)
    (output_path : Option ImgPath) :
    fileSize (compress_image enc config fs image_path output_path).fs image_path
      ≤ fileSize fs image_path ∧
    ((compress_image enc config fs image_path output_path).fs image_path
        = fs image_path ∨
      ∃ orig buffer, fs image_path = some orig ∧ enc orig = Except.ok buffer ∧
        buffer.length < orig.length ∧
        (compress_image enc config fs image_path output_path).fs image_path
          = some buffer) := by
  cases hfp : fs image_path with
  | none =>
    have hres : (compress_image enc config fs image_path output_path).fs image_path
        = none := by
      rw [compress_image_missing enc config fs image_path output_path hfp]
      exact hfp
    refine ⟨?_, Or.inl hres⟩
    simp only [fileSize, hres]
    exact Nat.zero_le _
  | some orig =>
    have hb := backupStep_image_path config fs image_path
      (output_path.getD image_path) orig hfp
    cases henc : enc orig with
    | error e =>
      have hres : (compress_image enc config fs image_path output_path).fs
          image_path = some orig := by
        rw [compress_image_error enc config fs image_path output_path orig e hfp henc]
        exact hb
      refine ⟨?_, Or.inl hres⟩
      simp only [fileSize, hres, hfp, Option.getD_some]
      exact Nat.le_refl _
    | ok buffer =>
      by_cases hlt : buffer.length < orig.length
      · by_cases hout : image_path = output_path.getD image_path
        · have hres : (compress_image enc config fs image_path output_path).fs
              image_path = some buffer := by
            rw [compress_image_smaller enc config fs image_path output_path orig
              buffer hfp henc hlt]
            show (backupStep config fs image_path (output_path.getD image_path)
              orig).write (output_path.getD image_path) buffer image_path
                = some buffer
            rw [FS.write]
            exact if_pos hout
          refine ⟨?_, Or.inr ⟨orig, buffer, rfl, henc, hlt, hres⟩⟩
          simp only [fileSize, hres, hfp, Option.getD_some]
          exact Nat.le_of_lt hlt
        · have hres : (compress_image enc config fs image_path output_path).fs
              image_path = some orig := by
            rw [compress_image_smaller enc config fs image_path output_path orig
              buffer hfp henc hlt]
            show (backupStep config fs image_path (output_path.getD image_path)
              orig).write (output_path.getD image_path) buffer image_path
                = some orig
            rw [FS.write_ne _ _ _ hout]
            exact hb
          refine ⟨?_, Or.inl hres⟩
          simp only [fileSize, hres, hfp, Option.getD_some]
          exact Nat.le_refl _
      · have hres : (compress_image enc config fs image_path output_path).fs
            image_path = some orig := by
          rw [compress_image_not_smaller enc config fs image_path output_path orig
            buffer hfp henc (Nat.le_of_not_lt hlt)]
          exact hb
        refine ⟨?_, Or.inl hres⟩
        simp only [fileSize, hres, hfp, Option.getD_some]
        exact Nat.le_refl _

/-- C2: whenever the codec oracle raises on the file's bytes (an exception
while opening, transforming or encoding, before the final write is
reached) — or the file cannot even be read — `compress_image` reports
failure with a message of the form `"Error: " ++ details`, and the bytes
stored under the source path are unchanged. -/
theorem c2_exception_leaves_file (enc : Bytes → Except String Bytes)
    (config : CompressionConfig) (fs : FS) (image_path : ImgPath)
    (output_path : Option ImgPath)
    (h : ∀ b, fs image_path = some b → ∃ e, enc b = Except.error e) :
    (compress_image enc config fs image_path output_path).success = false ∧
    (∃ d, (compress_image enc config fs image_path output_path).message
        = "Error: " ++ d) ∧
    (compress_image enc config fs image_path output_path).fs image_path
      = fs image_path := by
  cases hfp : fs image_path with
  | none =>
    rw [compress_image_missing enc config fs image_path output_path hfp]
    exact ⟨rfl, ⟨noSuchFileMsg image_path, rfl⟩, hfp⟩
  | some orig =>
    obtain ⟨e, he⟩ := h orig hfp
    rw [compress_image_error enc config fs image_path output_path orig e hfp he]
    exact ⟨rfl, ⟨e, rfl⟩,
      backupStep_image_path config fs image_path (output_path.getD image_path) orig hfp⟩

/-- Concrete run for C2: an empty filesystem, so the open raises. -/
def fsEmpty : FS := fun _ => none

/-- A codec oracle that always raises. -/
def encFail : Bytes → Except String Bytes := fun _ => Except.error "boom"

/-- Sample source path used by the concrete runs. -/
def pSample : ImgPath := { dir := "images", stem := "photo", ext := ".png" }

/-- The default `CompressionConfig()`. -/
def cfgDefault : CompressionConfig := {}

theorem c2_exception_leaves_file_witness :
    (∀ b, fsEmpty pSample = some b → ∃ e, encFail b = Except.error e) ∧
    ((compress_image encFail cfgDefault fsEmpty pSample none).success = false ∧
      (∃ d, (compress_image encFail cfgDefault fsEmpty pSample none).message
          = "Error: " ++ d) ∧
      (compress_image encFail cfgDefault fsEmpty pSample none).fs pSample
        = fsEmpty pSample) :=
  ⟨(fun _ hb => nomatch hb),
    c2_exception_leaves_file encFail cfgDefault fsEmpty pSample none
      (fun _ hb => nomatch hb)⟩

/-- C8: when the re-encoded buffer is not strictly smaller than the
current on-disk size, `compress_image` still succeeds, returns the
original on-disk size and the "already optimized" message, leaves the
source file byte-for-byte untouched, and indeed touches nothing except
possibly the backup sibling. -/
theorem c8_already_optimized (enc : Bytes → Except String Bytes)
    (config : CompressionConfig) (fs : FS) (image_path : ImgPath)
    (output_path : Option ImgPath) (orig buffer : Bytes)
    (hfp : fs image_path = some orig) (he : enc orig = Except.ok buffer)
    (hge : orig.length ≤ buffer.length) :
    (compress_image enc config fs image_path output_path).success = true ∧
    (compress_image enc config fs image_path output_path).new_size = orig.length ∧
    (compress_image enc config fs image_path output_path).message
      = "Already optimized (no changes made)" ∧
    (compress_image enc config fs image_path output_path).fs image_path
      = fs image_path ∧
    (∀ q, q ≠ backupPath image_path config.backup_suffix →
      (compress_image enc config fs image_path output_path).fs q = fs q) := by
  rw [compress_image_not_smaller enc config fs image_path output_path orig buffer
    hfp he hge]
  refine ⟨rfl, rfl, rfl, ?_, ?_⟩
  · exact (backupStep_image_path config fs image_path
      (output_path.getD image_path) orig hfp).trans hfp.symm
  · intro q hq
    exact backupStep_ne config fs image_path (output_path.getD image_path) orig hq

/-- A codec oracle that re-encodes without shrinking: the buffer repeats
the input, so it is never strictly smaller. -/
def encGrow : Bytes → Except String Bytes := fun b => Except.ok (b ++ b)

/-- A one-file filesystem holding three bytes under `pSample`. -/
def fsOne : FS := fun q => if q = pSample then some [1, 2, 3] else none

theorem c8_already_optimized_witness :
    (fsOne pSample = some [1, 2, 3] ∧ encGrow [1, 2, 3] = Except.ok [1, 2, 3, 1, 2, 3] ∧
      ([1, 2, 3] : Bytes).length ≤ ([1, 2, 3, 1, 2, 3] : Bytes).length) ∧
    ((compress_image encGrow cfgDefault fsOne pSample none).success = true ∧
      (compress_image encGrow cfgDefault fsOne pSample none).new_size
        = ([1, 2, 3] : Bytes).length ∧
      (compress_image encGrow cfgDefault fsOne pSample none).message
        = "Already optimized (no changes made)" ∧
      (compress_image encGrow cfgDefault fsOne pSample none).fs pSample
        = fsOne pSample ∧
      (∀ q, q ≠ backupPath pSample cfgDefault.backup_suffix →
        (compress_image encGrow cfgDefault fsOne pSample none).fs q = fsOne q)) :=
  ⟨⟨by decide, rfl, by decide⟩,
    c8_already_optimized encGrow cfgDefault fsOne pSample none [1, 2, 3]
      [1, 2, 3, 1, 2, 3] (by decide) rfl (by decide)⟩

/-- With backups enabled, an in-place output and no file under the backup
name, the call stores the original bytes under the backup name, whatever
the codec then does. -/
theorem compress_backup_created (enc : Bytes → Except String Bytes)
    (config : CompressionConfig) (fs : FS) (image_path : ImgPath)
    (output_path : Option ImgPath) (orig : Bytes)
    (hcb : config.create_backup = true)
    (hout : output_path.getD image_path = image_path)
    (hnb : fs (backupPath image_path config.backup_suffix) = none)
    (hfp : fs image_path = some orig) :
    (compress_image enc config fs image_path output_path).fs
      (backupPath image_path config.backup_suffix) = some orig := by
  have hbpne : backupPath image_path config.backup_suffix ≠ image_path := by
    intro he
    rw [he, hfp] at hnb
    exact Option.noConfusion hnb
  have hbs : backupStep config fs image_path (output_path.getD image_path) orig
      (backupPath image_path config.backup_suffix) = some orig := by
    unfold backupStep
    rw [if_pos ⟨hcb, hout⟩, hnb]
    show fs.write (backupPath image_path config.backup_suffix) orig
      (backupPath image_path config.backup_suffix) = some orig
    exact FS.write_self fs _ orig
  cases henc : enc orig with
  | error e =>
    rw [compress_image_error enc config fs image_path output_path orig e hfp henc]
    exact hbs
  | ok buffer =>
    by_cases hlt : buffer.length < orig.length
    · rw [compress_image_smaller enc config fs image_path output_path orig buffer
        hfp henc hlt]
      show (backupStep config fs image_path (output_path.getD image_path)
        orig).write (output_path.getD image_path) buffer
          (backupPath image_path config.backup_suffix) = some orig
      rw [FS.write_ne _ _ _ (hout.symm ▸ hbpne)]
      exact hbs
    · rw [compress_image_not_smaller enc config fs image_path output_path orig
        buffer hfp henc (Nat.le_of_not_lt hlt)]
      exact hbs

/-- C10: with backups enabled and an in-place output, a missing backup
sibling is written (with the original bytes) before the image is ever
opened or encoded, so it exists after the call no matter what the codec
does — including when the call fails with an exception or takes the
"already optimized" branch — and is not rolled back. -/
theorem c10_backup_survives_failure (enc : Bytes → Except String Bytes)
    (config : CompressionConfig) (fs : FS) (image_path : ImgPath)
    (output_path : Option ImgPath) (orig : Bytes)
    (hcb : config.create_backup = true)
    (hout : output_path.getD image_path = image_path)
    (hnb : fs (backupPath image_path config.backup_suffix) = none)
    (hfp : fs image_path = some orig) :
    (compress_image enc config fs image_path output_path).fs
        (backupPath image_path config.backup_suffix) = some orig ∧
    (∀ e, enc orig = Except.error e →
      (compress_image enc config fs image_path output_path).success = false) := by
  refine ⟨compress_backup_created enc config fs image_path output_path orig
    hcb hout hnb hfp, ?_⟩
  intro e he
  rw [compress_image_error enc config fs image_path output_path orig e hfp he]

theorem c10_backup_survives_failure_witness :
    (cfgDefault.create_backup = true ∧
      (none : Option ImgPath).getD pSample = pSample ∧
      fsOne (backupPath pSample cfgDefault.backup_suffix) = none ∧
      fsOne pSample = some [1, 2, 3]) ∧
    ((compress_image encFail cfgDefault fsOne pSample none).fs
        (backupPath pSample cfgDefault.backup_suffix) = some [1, 2, 3] ∧
      (∀ e, encFail [1, 2, 3] = Except.error e →
        (compress_image encFail cfgDefault fsOne pSample none).success = false)) :=
  ⟨⟨rfl, rfl, by decide, by decide⟩,
    c10_backup_survives_failure encFail cfgDefault fsOne pSample none [1, 2, 3]
      rfl rfl (by decide) (by decide)⟩

/-- When a file is already stored under the backup name, an in-place call
with a nonempty backup suffix leaves that file untouched, whatever the
codec does. -/
theorem compress_preserves_backup (enc : Bytes → Except String Bytes)
    (config : CompressionConfig) (fs : FS) (image_path : ImgPath)
    (output_path : Option ImgPath) (b : Bytes)
    (hout : output_path.getD image_path = image_path)
    (hsuf : config.backup_suffix ≠ "")
    (hb : fs (backupPath image_path config.backup_suffix) = some b) :
    (compress_image enc config fs image_path output_path).fs
      (backupPath image_path config.backup_suffix) = some b := by
  have hbpne : backupPath image_path config.backup_suffix ≠ image_path :=
    backupPath_ne image_path config.backup_suffix hsuf
  cases hfp : fs image_path with
  | none =>
    rw [compress_image_missing enc config fs image_path output_path hfp]
    exact hb
  | some orig =>
    have hbs : backupStep config fs image_path (output_path.getD image_path) orig
        (backupPath image_path config.backup_suffix) = some b := by
      unfold backupStep
      split
      · split
        · exact hb
        · rename_i hn
          rw [hb] at hn
          simp at hn
      · exact hb
    cases henc : enc orig with
    | error e =>
      rw [compress_image_error enc config fs image_path output_path orig e hfp henc]
      exact hbs
    | ok buffer =>
      by_cases hlt : buffer.length < orig.length
      · rw [compress_image_smaller enc config fs image_path output_path orig buffer
          hfp henc hlt]
        show (backupStep config fs image_path (output_path.getD image_path)
          orig).write (output_path.getD image_path) buffer
            (backupPath image_path config.backup_suffix) = some b
        rw [FS.write_ne _ _ _ (hout.symm ▸ hbpne)]
        exact hbs
      · rw [compress_image_not_smaller enc config fs image_path output_path orig
          buffer hfp henc (Nat.le_of_not_lt hlt)]
        exact hbs

/-- Iterated in-place compression never disturbs an existing backup
(nonempty suffix). -/
theorem iterCompress_preserves_backup (enc : Bytes → Except String Bytes)
    (config : CompressionConfig) (image_path : ImgPath)
    (hsuf : config.backup_suffix ≠ "") :
    ∀ (n : Nat) (fs : FS) (b : Bytes),
      fs (backupPath image_path config.backup_suffix) = some b →
      iterCompress enc config image_path n fs
        (backupPath image_path config.backup_suffix) = some b := by
  intro n
  induction n with
  | zero => intro fs b hb; exact hb
  | succ m ih =>
    intro fs b hb
    exact ih (compress_image enc config fs image_path none).fs b
      (compress_preserves_backup enc config fs image_path none b rfl hsuf hb)

/-- C3 (counterexample to the claim as stated): with `create_backup` on
but an empty `backup_suffix`, the file named `{stem}{backup_suffix}{ext}`
is the input file itself; it exists, so no copy is made, yet the call
overwrites it with the re-encoded buffer — the existing file of the
backup's name is not preserved. -/
theorem c3_backup_clobbered_with_empty_suffix :
    ({ backup_suffix := "" } : CompressionConfig).create_backup = true ∧
    (fsOne (backupPath pSample "")).isSome = true ∧
    (compress_image (fun _ => Except.ok [7]) { backup_suffix := "" } fsOne
        pSample none).fs (backupPath pSample "")
      ≠ fsOne (backupPath pSample "") := by
  refine ⟨rfl, by decide, ?_⟩
  intro h
  exact absurd h (by decide)

/-- C3 (amended): when `create_backup` is true, the output path equals the
input path, and the backup suffix is nonempty (so the backup name differs
from the input path), the original bytes are copied to the backup sibling
only if no file of that name exists, an existing file of that name is
never overwritten, and across any positive number of repeated in-place
compressions the backup is created once and keeps the first-run original
bytes. -/
theorem c3_backup_created_once (enc : Bytes → Except String Bytes)
    (config : CompressionConfig) (fs : FS) (image_path : ImgPath)
    (output_path : Option ImgPath)
    (hcb : config.create_backup = true)
    (hout : output_path.getD image_path = image_path)
    (hsuf : config.backup_suffix ≠ "") :
    (∀ b, fs (backupPath image_path config.backup_suffix) = some b →
      (compress_image enc config fs image_path output_path).fs
        (backupPath image_path config.backup_suffix) = some b) ∧
    (∀ orig, fs (backupPath image_path config.backup_suffix) = none →
      fs image_path = some orig →
      (compress_image enc config fs image_path output_path).fs
        (backupPath image_path config.backup_suffix) = some orig) ∧
    (∀ n orig, 1 ≤ n →
      fs (backupPath image_path config.backup_suffix) = none →
      fs image_path = some orig →
      iterCompress enc config image_path n fs
        (backupPath image_path config.backup_suffix) = some orig) := by
  refine ⟨?_, ?_, ?_⟩
  · intro b hb
    exact compress_preserves_backup enc config fs image_path output_path b
      hout hsuf hb
  · intro orig hnb hfp
    exact compress_backup_created enc config fs image_path output_path orig
      hcb hout hnb hfp
  · intro n orig hn hnb hfp
    cases n with
    | zero => exact absurd hn (by decide)
    | succ m =>
      show iterCompress enc config image_path m
        (compress_image enc config fs image_path none).fs
        (backupPath image_path config.backup_suffix) = some orig
      exact iterCompress_preserves_backup enc config image_path hsuf m
        (compress_image enc config fs image_path none).fs orig
        (compress_backup_created enc config fs image_path none orig hcb rfl hnb hfp)

theorem c3_backup_created_once_witness :
    (cfgDefault.create_backup = true ∧
      (none : Option ImgPath).getD pSample = pSample ∧
      cfgDefault.backup_suffix ≠ "") ∧
    ((∀ b, fsOne (backupPath pSample cfgDefault.backup_suffix) = some b →
        (compress_image encGrow cfgDefault fsOne pSample none).fs
          (backupPath pSample cfgDefault.backup_suffix) = some b) ∧
      (∀ orig, fsOne (backupPath pSample cfgDefault.backup_suffix) = none →
        fsOne pSample = some orig →
        (compress_image encGrow cfgDefault fsOne pSample none).fs
          (backupPath pSample cfgDefault.backup_suffix) = some orig) ∧
      (∀ n orig, 1 ≤ n →
        fsOne (backupPath pSample cfgDefault.backup_suffix) = none →
        fsOne pSample = some orig →
        iterCompress encGrow cfgDefault pSample n fsOne
          (backupPath pSample cfgDefault.backup_suffix) = some orig)) :=
  ⟨⟨rfl, rfl, by decide⟩,
    c3_backup_created_once encGrow cfgDefault fsOne pSample none rfl rfl (by decide)⟩

/-!
Lemmas about the white-background blend.
-/

theorem muldiv255_zero (x : Nat) : muldiv255 x 0 = 0 := by
  simp [muldiv255]

theorem blendChan_white_zero (c : Nat) : blendChan 255 c 0 = 255 := by
  rw [blendChan, muldiv255_zero]
  decide

/-- A fully transparent pixel blended onto the white background comes out
white. -/
theorem blendPix_white_transparent (src : Pix) : blendPix whitePix src 0 = whitePix := by
  simp [blendPix, whitePix, blendChan_white_zero]

/-- C5: on every image whose mode carries alpha or a palette (RGBA, LA,
PA or P), the JPEG branch produces a plain RGB image (transparency never
survives); for RGBA, LA and P (resolved through its palette first) every
pixel is the blend of the source pixel onto the opaque white background —
in particular a fully transparent pixel becomes white, never black — and
a PA source is pasted mask-less over the white background, its palette
colors covering it. -/
theorem c5_jpeg_flattens_onto_white (img : PImage)
    (h : img.mode = .RGBA ∨ img.mode = .LA ∨ img.mode = .PA ∨ img.mode = .P) :
    (jpegPrepare img).mode = .RGB ∧
    (img.mode ≠ .PA → ∀ i j,
      (jpegPrepare img).px i j
        = blendPix whitePix ((resolveP img).px i j) (((resolveP img).px i j).a)) ∧
    (img.mode = .PA → ∀ i j,
      (jpegPrepare img).px i j = opaqueRGB (img.palette ((img.px i j).r))) ∧
    (img.mode ≠ .PA → ∀ i j, ((resolveP img).px i j).a = 0 →
      (jpegPrepare img).px i j = whitePix) := by
  rcases h with h | h | h | h
  · refine ⟨?_, ?_, ?_, ?_⟩
    · simp [jpegPrepare, resolveP, h]
    · intro _ i j
      simp [jpegPrepare, resolveP, h]
    · intro hPA
      exact absurd (h.symm.trans hPA) (by decide)
    · intro _ i j ha
      simp only [resolveP, h] at ha
      simp only [if_neg (by decide : ¬PMode.RGBA = PMode.P)] at ha
      simp [jpegPrepare, resolveP, h, ha, blendPix_white_transparent]
  · refine ⟨?_, ?_, ?_, ?_⟩
    · simp [jpegPrepare, resolveP, h]
    · intro _ i j
      simp [jpegPrepare, resolveP, h]
    · intro hPA
      exact absurd (h.symm.trans hPA) (by decide)
    · intro _ i j ha
      simp only [resolveP, h] at ha
      simp only [if_neg (by decide : ¬PMode.LA = PMode.P)] at ha
      simp [jpegPrepare, resolveP, h, ha, blendPix_white_transparent]
  · refine ⟨?_, ?_, ?_, ?_⟩
    · simp [jpegPrepare, resolveP, h]
    · intro hne
      exact absurd h hne
    · intro _ i j
      simp [jpegPrepare, resolveP, h]
    · intro hne
      exact absurd h hne
  · refine ⟨?_, ?_, ?_, ?_⟩
    · simp [jpegPrepare, resolveP, h, convertRGBA_fromP]
    · intro _ i j
      simp [jpegPrepare, resolveP, h, convertRGBA_fromP]
    · intro hPA
      exact absurd (h.symm.trans hPA) (by decide)
    · intro _ i j ha
      simp only [resolveP, h, if_pos, convertRGBA_fromP] at ha
      simp [jpegPrepare, resolveP, h, convertRGBA_fromP, ha,
        blendPix_white_transparent]

/-- A 1x1 RGBA image with a fully transparent pixel. -/
def imgTransparent : PImage :=
  { mode := .RGBA, width := 1, height := 1,
    px := fun _ _ => { r := 10, g := 20, b := 30, a := 0 },
    palette := fun _ => { r := 0, g := 0, b := 0, a := 0 }, paletteSize := 0 }

theorem c5_jpeg_flattens_onto_white_witness :
    (imgTransparent.mode = .RGBA ∨ imgTransparent.mode = .LA ∨
      imgTransparent.mode = .PA ∨ imgTransparent.mode = .P) ∧
    ((jpegPrepare imgTransparent).mode = .RGB ∧
      (imgTransparent.mode ≠ .PA → ∀ i j,
        (jpegPrepare imgTransparent).px i j
          = blendPix whitePix ((resolveP imgTransparent).px i j)
              (((resolveP imgTransparent).px i j).a)) ∧
      (imgTransparent.mode = .PA → ∀ i j,
        (jpegPrepare imgTransparent).px i j
          = opaqueRGB (imgTransparent.palette ((imgTransparent.px i j).r))) ∧
      (imgTransparent.mode ≠ .PA → ∀ i j,
        ((resolveP imgTransparent).px i j).a = 0 →
        (jpegPrepare imgTransparent).px i j = whitePix)) :=
  ⟨Or.inl rfl, c5_jpeg_flattens_onto_white imgTransparent (Or.inl rfl)⟩

/-- C6: if the image reaching the palette step of `_optimize_png` is in
full-color RGB mode and uses at most 256 distinct colors, it is converted
to an adaptive palette whose size equals exactly the number of distinct
colors present. -/
theorem c6_adaptive_palette_exact (img : PImage)
    (h1 : (alphaCheckStep img).mode = .RGB)
    (h2 : ((rgbList (alphaCheckStep img)).dedup).length ≤ 256) :
    (_optimize_png img).mode = .P ∧
    (_optimize_png img).paletteSize
      = ((rgbList (alphaCheckStep img)).dedup).length := by
  have hngt : ¬((rgbList (alphaCheckStep img)).dedup).length > 256 :=
    Nat.not_lt.mpr h2
  rw [_optimize_png, paletteStep, if_pos h1, getcolors, if_neg hngt]
  constructor
  · rfl
  · show ((rgbList (alphaCheckStep img)).dedup.map
      (fun c => ((rgbList (alphaCheckStep img)).count c, c))).length
        = ((rgbList (alphaCheckStep img)).dedup).length
    exact List.length_map _ _

/-- The all-white 8x8 RGB image of the palette-conversion example. -/
def imgWhite8 : PImage :=
  { mode := .RGB, width := 8, height := 8,
    px := fun _ _ => { r := 255, g := 255, b := 255, a := 255 },
    palette := fun _ => { r := 0, g := 0, b := 0, a := 0 }, paletteSize := 0 }

theorem c6_adaptive_palette_exact_witness :
    ((alphaCheckStep imgWhite8).mode = .RGB ∧
      ((rgbList (alphaCheckStep imgWhite8)).dedup).length ≤ 256 ∧
      ((rgbList (alphaCheckStep imgWhite8)).dedup).length = 1) ∧
    ((_optimize_png imgWhite8).mode = .P ∧
      (_optimize_png imgWhite8).paletteSize = 1) := by
  have h := c6_adaptive_palette_exact imgWhite8 (by decide) (by decide)
  exact ⟨⟨by decide, by decide, by decide⟩, h.1, h.2.trans (by decide)⟩

/-- C7: an RGBA image whose alpha band is opaque everywhere (extrema
`(255, 255)`) is converted to plain RGB by the alpha check of
`_optimize_png`, and the image handed to the PNG encoder carries no
alpha channel. -/
theorem c7_opaque_alpha_dropped (img : PImage)
    (h1 : img.mode = .RGBA)
    (h2 : alphaExtrema img = some (255, 255)) :
    (alphaCheckStep img).mode = .RGB ∧
    modeHasAlpha (_optimize_png img).mode = false := by
  have hstep : alphaCheckStep img = toRGB_dropAlpha img := by
    rw [alphaCheckStep, if_pos ⟨h1, h2⟩]
  have hmode : (alphaCheckStep img).mode = .RGB := by
    rw [hstep]
    rfl
  refine ⟨hmode, ?_⟩
  rw [_optimize_png, paletteStep, if_pos hmode]
  cases getcolors (alphaCheckStep img) 256 with
  | none => rw [hmode]; rfl
  | some colors => rfl

/-!
Directory-scan lemmas.
-/

theorem mem_collectSub (pre p : List String) :
    ∀ ts : List FSTree, p ∈ collectSub pre ts ↔
      ∃ t, t ∈ ts ∧ keepDir t.name = true ∧ p ∈ collectImages (pre ++ [t.name]) t := by
  intro ts
  induction ts with
  | nil => simp [collectSub]
  | cons t ts ih =>
    rw [collectSub, List.mem_append]
    constructor
    · rintro (hp | hp)
      · by_cases hk : keepDir t.name = true
        · rw [if_pos hk] at hp
          exact ⟨t, List.mem_cons_self t ts, hk, hp⟩
        · rw [if_neg hk] at hp
          exact absurd hp (List.not_mem_nil p)
      · obtain ⟨u, hu, hku, hpu⟩ := ih.mp hp
        exact ⟨u, List.mem_cons_of_mem t hu, hku, hpu⟩
    · rintro ⟨u, hu, hku, hpu⟩
      rcases List.mem_cons.mp hu with rfl | hu
      · refine Or.inl ?_
        rw [if_pos hku]
        exact hpu
      · exact Or.inr (ih.mpr ⟨u, hu, hku, hpu⟩)

theorem mem_collectImages : ∀ (k : Nat) (t : FSTree), sizeOf t ≤ k →
    ∀ (pre p : List String), (p ∈ collectImages pre t ↔ ValidImagePath pre t p) := by
  intro k
  induction k with
  | zero =>
    intro t ht
    cases t with
    | node n files subdirs =>
      exfalso
      have h2 := FSTree.node.sizeOf_spec n files subdirs
      omega
  | succ k ih =>
    intro t ht pre p
    cases t with
    | node n files subdirs =>
      have h2 := FSTree.node.sizeOf_spec n files subdirs
      rw [collectImages, List.mem_append]
      constructor
      · rintro (hp | hp)
        · obtain ⟨f, hf, hfp⟩ := List.mem_map.mp hp
          obtain ⟨hfmem, hkf⟩ := List.mem_filter.mp hf
          rw [← hfp]
          exact ValidImagePath.here hfmem hkf
        · obtain ⟨u, hu, hku, hpu⟩ := (mem_collectSub pre p subdirs).mp hp
          have hsz : sizeOf u ≤ k := by
            have h1 := List.sizeOf_lt_of_mem hu
            omega
          exact ValidImagePath.deeper hu hku ((ih u hsz (pre ++ [u.name]) p).mp hpu)
      · intro hv
        cases hv with
        | here hf hkf =>
          refine Or.inl (List.mem_map.mpr ⟨_, List.mem_filter.mpr ⟨hf, hkf⟩, rfl⟩)
        | deeper hu hku hvp =>
          rename_i u
          have hsz : sizeOf u ≤ k := by
            have h1 := List.sizeOf_lt_of_mem hu
            omega
          exact Or.inr ((mem_collectSub pre p subdirs).mpr
            ⟨u, hu, hku, (ih u hsz (pre ++ [u.name]) p).mpr hvp⟩)

/-- C9: `scan_for_images` returns a sorted list (paths compared
component-wise, the way Python compares `Path` values), and a path is in
the result exactly when it denotes a file reachable from the scan root
through directories that are neither hidden nor `venv`/`.venv`, whose
name is not hidden, contains neither `_original` nor `_backup`, and whose
lowercased name ends in one of the seven supported image extensions. -/
theorem c9_scan_recursive_filtered_sorted (directory : List String) (t : FSTree) :
    List.Sorted (· ≤ ·) (scan_for_images directory t) ∧
    ∀ p, p ∈ scan_for_images directory t ↔ ValidImagePath directory t p := by
  constructor
  · exact List.sorted_insertionSort _ _
  · intro p
    rw [scan_for_images, List.mem_insertionSort]
    exact mem_collectImages (sizeOf t) t (Nat.le_refl _) directory p

/-- A 1x1 RGBA image that is opaque everywhere. -/
def imgOpaque : PImage :=
  { mode := .RGBA, width := 1, height := 1,
    px := fun _ _ => { r := 9, g := 8, b := 7, a := 255 },
    palette := fun _ => { r := 0, g := 0, b := 0, a := 0 }, paletteSize := 0 }

theorem c7_opaque_alpha_dropped_witness :
    (imgOpaque.mode = .RGBA ∧ alphaExtrema imgOpaque = some (255, 255)) ∧
    ((alphaCheckStep imgOpaque).mode = .RGB ∧
      modeHasAlpha (_optimize_png imgOpaque).mode = false) :=
  ⟨⟨rfl, by decide⟩, c7_opaque_alpha_dropped imgOpaque rfl (by decide)⟩

/-- C4: the browser variant's local HTTP surface exposes exactly the two
JSON endpoints the spec describes: `GET /api/images` answers with the
array of image records (path, filename, sizes, dimensions, format,
base64 thumbnail), and `POST /api/compress` with body
`{path, quality, backup}` runs the compression engine on the decoded
path — quality and backup taken from the body — and answers with
`{success, new_size, savings}`. -/
theorem c4_http_two_endpoints (s : ServerState) (b : CompressBody) :
    handle_request s { method := .GET, url := "/api/images", body := none }
      = ApiResponse.jsonImages s.records ∧
    handle_request s { method := .POST, url := "/api/compress", body := some b }
      = ApiResponse.jsonCompress
          { success := (compress_image s.enc
                { quality := b.quality, create_backup := b.backup } s.fs
                (s.decodePath b.path) none).success,
            new_size := (compress_image s.enc
                { quality := b.quality, create_backup := b.backup } s.fs
                (s.decodePath b.path) none).new_size,
            savings := fileSize s.fs (s.decodePath b.path)
              - (compress_image s.enc
                  { quality := b.quality, create_backup := b.backup } s.fs
                  (s.decodePath b.path) none).new_size } :=
  ⟨rfl, rfl⟩

end QP
